import Mathlib

/-!
Verification of the `wheely` Lorenz water-wheel simulation engine
(`src/wheely_simulation.cpp`).

Embedding conventions:
* C++ `double` values are modelled as exact rationals (`ℚ`); decimal
  literals of the source (`0.1`, `0.5`, the `PI` constant) become the
  exact rationals those decimal strings denote.  Field division on `ℚ`
  is total with junk value `0` at a zero denominator, which stands in
  for the unguarded IEEE division the source performs.
* `std::sin` is modelled as an uninterpreted parameter `sinf : ℚ → ℚ`
  threaded through every function that the source's `std::sin` reaches;
  no theorem below depends on its values.
* `std::vector<double>` is modelled as `List ℚ`; reads are `List.getD`
  (in-range reads agree with the C++ access) and writes are `List.set`.
  A separate `Option`-valued variant (`...C` definitions) checks every
  index before accessing, to express the bounds-safety claim.
* C++ exceptions (`std::invalid_argument`) become `Except String`.
-/

namespace Wheely

/-- The source constant `PI = 3.14159265358979323846`, read exactly. -/
def PI : ℚ := 3.14159265358979323846

/-- The source constant `TWO_PI = 2.0 * PI`. -/
def TWO_PI : ℚ := 2 * PI

/-- `wheely::SimulationConfig` from `wheely_simulation.h`. -/
structure SimulationConfig where
  n_cups : ℕ
  radius : ℚ
  g : ℚ
  damping : ℚ
  leak_rate : ℚ
  inflow_rate : ℚ
  inertia : ℚ
  omega0 : ℚ
  t_start : ℚ
  t_end : ℚ
  n_frames : ℕ
  steps_per_frame : ℕ
deriving DecidableEq

/-- `wheely::SimulationResult` from `wheely_simulation.h`. -/
structure SimulationResult where
  times : List ℚ
  theta : List ℚ
  masses : List ℚ
deriving DecidableEq

/-- `validate_config`: returns the first failing check's message, or
`none` when the configuration is accepted.  (The C++ function throws
`std::invalid_argument` with the same messages.) -/
def validate_config (cfg : SimulationConfig) : Option String :=
  if cfg.n_cups < 1 then some "n_cups must be positive"
  else if cfg.n_frames < 2 then some "n_frames must be at least 2"
  else if cfg.t_end ≤ cfg.t_start then some "t_end must be greater than t_start"
  else if cfg.steps_per_frame < 1 then some "steps_per_frame must be positive"
  else none

/-- Truncation toward zero, the rounding used by C's `fmod`. -/
def ratTrunc (q : ℚ) : ℤ := if 0 ≤ q then ⌊q⌋ else ⌈q⌉

/-- `std::fmod a b = a - b * trunc(a / b)` on the rational model. -/
def fmod (a b : ℚ) : ℚ := a - b * (ratTrunc (a / b) : ℚ)

/-- Angular spacing between neighbouring cups: `TWO_PI / n_cups`. -/
def cup_angle_step (cfg : SimulationConfig) : ℚ := TWO_PI / (cfg.n_cups : ℚ)

/-- Absolute angle of cup `i`: `theta + cup_angle_step * i`. -/
def cup_angle (cfg : SimulationConfig) (theta : ℚ) (i : ℕ) : ℚ :=
  theta + cup_angle_step cfg * (i : ℚ)

/-- The source's wrap of an angle into `[0, TWO_PI)`: `fmod` by
`TWO_PI`, then add `TWO_PI` if the remainder is negative. -/
def wrap_angle (a : ℚ) : ℚ :=
  let phi := fmod a TWO_PI
  if phi < 0 then phi + TWO_PI else phi

/-- One summand of the torque accumulation loop. -/
def torque_term (sinf : ℚ → ℚ) (cfg : SimulationConfig) (theta mass : ℚ) (i : ℕ) : ℚ :=
  mass * cfg.g * cfg.radius * sinf (cup_angle cfg theta i)

/-- The torque accumulation loop of `compute_derivatives`
(`torque += mass * g * radius * sin(angle)` over cups `0..n_cups-1`). -/
def torque (sinf : ℚ → ℚ) (state : List ℚ) (cfg : SimulationConfig) : ℚ :=
  (List.range cfg.n_cups).foldl
    (fun acc i => acc + torque_term sinf cfg (state.getD 0 0) (state.getD (2 + i) 0) i) 0

/-- The mass-derivative expression of `compute_derivatives` for cup `i`
holding mass `mass`, at wheel angle `theta`. -/
def mass_deriv (cfg : SimulationConfig) (theta : ℚ) (i : ℕ) (mass : ℚ) : ℚ :=
  let phi := wrap_angle (cup_angle cfg theta i)
  if phi < 0.1 ∨ phi > TWO_PI - 0.1 then cfg.inflow_rate - cfg.leak_rate * mass
  else -cfg.leak_rate * mass

/-- `compute_derivatives`: builds a vector of the same length as
`state`, with slot 0 = `omega`, slot 1 = angular acceleration, and slot
`2 + i` = the mass derivative of cup `i` (slots past the cups, which the
C++ zero-initialised vector would leave at `0.0`, stay `0`). -/
def compute_derivatives (sinf : ℚ → ℚ) (state : List ℚ) (cfg : SimulationConfig) : List ℚ :=
  let theta := state.getD 0 0
  let omega := state.getD 1 0
  let tq := torque sinf state cfg
  (List.range state.length).map fun j =>
    if j = 0 then omega
    else if j = 1 then (-cfg.damping * omega + tq) / cfg.inertia
    else if j - 2 < cfg.n_cups then mass_deriv cfg theta (j - 2) (state.getD j 0)
    else 0

/-- The `temp` vector of `rk4_step`: `state + c * k` component-wise
(over the indices of `state`). -/
def rk4_temp (state k : List ℚ) (c : ℚ) : List ℚ :=
  (List.range state.length).map fun i => state.getD i 0 + c * k.getD i 0

/-- Stage 1 of `rk4_step`: derivatives at the current state. -/
def rk4_k1 (sinf : ℚ → ℚ) (state : List ℚ) (cfg : SimulationConfig) : List ℚ :=
  compute_derivatives sinf state cfg

/-- Stage 2 of `rk4_step`: derivatives at the `k1` midpoint prediction
(`half_dt = dt * 0.5` in the source). -/
def rk4_k2 (sinf : ℚ → ℚ) (state : List ℚ) (dt : ℚ) (cfg : SimulationConfig) : List ℚ :=
  compute_derivatives sinf (rk4_temp state (rk4_k1 sinf state cfg) (dt * 0.5)) cfg

/-- Stage 3 of `rk4_step`: derivatives at the `k2` midpoint prediction. -/
def rk4_k3 (sinf : ℚ → ℚ) (state : List ℚ) (dt : ℚ) (cfg : SimulationConfig) : List ℚ :=
  compute_derivatives sinf (rk4_temp state (rk4_k2 sinf state dt cfg) (dt * 0.5)) cfg

/-- Stage 4 of `rk4_step`: derivatives at the `k3` endpoint prediction. -/
def rk4_k4 (sinf : ℚ → ℚ) (state : List ℚ) (dt : ℚ) (cfg : SimulationConfig) : List ℚ :=
  compute_derivatives sinf (rk4_temp state (rk4_k3 sinf state dt cfg) dt) cfg

/-- `rk4_step`: classical fourth-order Runge-Kutta update of `state` by
one sub-step of size `dt` (`sixth_dt = dt / 6.0` in the source). -/
def rk4_step (sinf : ℚ → ℚ) (state : List ℚ) (dt : ℚ) (cfg : SimulationConfig) : List ℚ :=
  let k1 := rk4_k1 sinf state cfg
  let k2 := rk4_k2 sinf state dt cfg
  let k3 := rk4_k3 sinf state dt cfg
  let k4 := rk4_k4 sinf state dt cfg
  (List.range state.length).map fun i =>
    state.getD i 0 +
      dt / 6 * (k1.getD i 0 + 2 * k2.getD i 0 + 2 * k3.getD i 0 + k4.getD i 0)

/-- Initial state of `simulate`: `n_cups + 2` zeros, slot 1 = `omega0`. -/
def init_state (cfg : SimulationConfig) : List ℚ :=
  (List.replicate (cfg.n_cups + 2) 0).set 1 cfg.omega0

/-- `frame_dt = (t_end - t_start) / (n_frames - 1)`. -/
def frame_dt (cfg : SimulationConfig) : ℚ :=
  (cfg.t_end - cfg.t_start) / ((cfg.n_frames - 1 : ℕ) : ℚ)

/-- `sub_dt = frame_dt / steps_per_frame`. -/
def sub_dt (cfg : SimulationConfig) : ℚ :=
  frame_dt cfg / (cfg.steps_per_frame : ℚ)

/-- The pre-sized, zero-filled `SimulationResult` the driver allocates
before its frame loop (`resize` / `assign` with value `0.0`). -/
def init_result (cfg : SimulationConfig) : SimulationResult :=
  { times := List.replicate cfg.n_frames 0
    theta := List.replicate cfg.n_frames 0
    masses := List.replicate (cfg.n_cups * cfg.n_frames) 0 }

/-- The inner recording loop
`masses[cup * n_frames + frame] = state[2 + cup]` over all cups. -/
def record_masses (n_frames frame n_cups : ℕ) (state masses : List ℚ) : List ℚ :=
  (List.range n_cups).foldl
    (fun m cup => m.set (cup * n_frames + frame) (state.getD (2 + cup) 0)) masses

/-- Recording of one frame: timestamp, wheel angle, and every cup mass. -/
def record_frame (cfg : SimulationConfig) (frame : ℕ) (t : ℚ) (state : List ℚ)
    (res : SimulationResult) : SimulationResult :=
  { times := res.times.set frame t
    theta := res.theta.set frame (state.getD 0 0)
    masses := record_masses cfg.n_frames frame cfg.n_cups state res.masses }

/-- The inner integration loop between two frames: `steps_per_frame`
iterations of `rk4_step` followed by `current_time += sub_dt`. -/
def sub_steps (sinf : ℚ → ℚ) (cfg : SimulationConfig) (dt : ℚ) :
    ℕ → List ℚ × ℚ → List ℚ × ℚ
  | 0, p => p
  | n + 1, p => sub_steps sinf cfg dt n (rk4_step sinf p.1 dt cfg, p.2 + dt)

/-- The frame loop of `simulate`; `r` is the number of frames still to
record (`n_frames - frame`), and the loop breaks after recording frame
`n_frames - 1` without integrating further. -/
def sim_loop (sinf : ℚ → ℚ) (cfg : SimulationConfig) (dt : ℚ) :
    ℕ → ℕ → ℚ → List ℚ → SimulationResult → SimulationResult
  | 0, _, _, _, res => res
  | r + 1, frame, t, state, res =>
    let res1 := record_frame cfg frame t state res
    if r = 0 then res1
    else
      let p := sub_steps sinf cfg dt cfg.steps_per_frame (state, t)
      sim_loop sinf cfg dt r (frame + 1) p.2 p.1 res1

/-- The post-validation body of `simulate`. -/
def run (sinf : ℚ → ℚ) (cfg : SimulationConfig) : SimulationResult :=
  sim_loop sinf cfg (sub_dt cfg) cfg.n_frames 0 cfg.t_start (init_state cfg) (init_result cfg)

/-- `wheely::simulate`: validate, then run the integration driver. -/
def simulate (sinf : ℚ → ℚ) (cfg : SimulationConfig) : Except String SimulationResult :=
  match validate_config cfg with
  | some e => Except.error e
  | none => Except.ok (run sinf cfg)

/-- Net effect of one frame's worth of sub-steps on the state. -/
def frame_advance (sinf : ℚ → ℚ) (cfg : SimulationConfig) (dt : ℚ) (st : List ℚ) : List ℚ :=
  ((fun s => rk4_step sinf s dt cfg)^[cfg.steps_per_frame]) st

/-- State after `m` RK4 sub-steps of the run. -/
def state_after (sinf : ℚ → ℚ) (cfg : SimulationConfig) (m : ℕ) : List ℚ :=
  (fun s => rk4_step sinf s (sub_dt cfg) cfg)^[m] (init_state cfg)

/-- State when frame `k` is recorded: `k * steps_per_frame` sub-steps. -/
def frame_state (sinf : ℚ → ℚ) (cfg : SimulationConfig) (k : ℕ) : List ℚ :=
  state_after sinf cfg (cfg.steps_per_frame * k)

/-- A concrete stand-in for `std::sin` used by the concrete test
vectors; every theorem that depends on a specific trajectory has all
sine prefactors equal to zero, so the choice is irrelevant there. -/
def zeroSin : ℚ → ℚ := fun _ => 0

/-- The end-to-end test configuration of the spec: one cup, free wheel
(`damping = leak_rate = inflow_rate = g = 0`), `omega0 = 1`,
`inertia = 1`, three frames over `[0, 1]`, five sub-steps per frame. -/
def test_config : SimulationConfig :=
  { n_cups := 1, radius := 1, g := 0, damping := 0, leak_rate := 0, inflow_rate := 0,
    inertia := 1, omega0 := 1, t_start := 0, t_end := 1, n_frames := 3,
    steps_per_frame := 5 }

/-- The derivative-function test configuration of the spec: one cup,
`g = 9.81`, `radius = 1`, `damping = 0.5`, `inertia = 2`,
`inflow_rate = 1`, `leak_rate = 0.1`. -/
def deriv_test_config : SimulationConfig :=
  { n_cups := 1, radius := 1, g := 9.81, damping := 0.5, leak_rate := 0.1,
    inflow_rate := 1, inertia := 2, omega0 := 1, t_start := 0, t_end := 1,
    n_frames := 2, steps_per_frame := 1 }

/-! ### Bounds-checked variant of the engine

Every `std::vector` subscript of the source (reads and writes) is
turned into an `Option`-valued access that fails instead of going out
of range; the pipeline therefore returns `none` as soon as any access
of the C++ code would be out of bounds. -/

/-- Checked read `l[i]`. -/
def getC (l : List ℚ) (i : ℕ) : Option ℚ := l[i]?

/-- Checked write `l[i] = v`. -/
def setC (l : List ℚ) (i : ℕ) (v : ℚ) : Option (List ℚ) :=
  if i < l.length then some (l.set i v) else none

/-- Checked torque accumulation loop. -/
def torqueC (sinf : ℚ → ℚ) (state : List ℚ) (cfg : SimulationConfig) (theta : ℚ) :
    Option ℚ :=
  (List.range cfg.n_cups).foldlM
    (fun acc i => do
      let mass ← getC state (2 + i)
      pure (acc + torque_term sinf cfg theta mass i)) 0

/-- Checked mass-derivative loop, writing slots `2 + i`. -/
def mass_loopC (cfg : SimulationConfig) (state : List ℚ) (theta : ℚ) (d : List ℚ) :
    Option (List ℚ) :=
  (List.range cfg.n_cups).foldlM
    (fun acc i => do
      let mass ← getC state (2 + i)
      setC acc (2 + i) (mass_deriv cfg theta i mass)) d

/-- The pure counterpart of `mass_loopC` (used to relate it to
`compute_derivatives`). -/
def mass_loop (cfg : SimulationConfig) (state : List ℚ) (theta : ℚ) (d : List ℚ) :
    List ℚ :=
  (List.range cfg.n_cups).foldl
    (fun acc i => acc.set (2 + i) (mass_deriv cfg theta i (state.getD (2 + i) 0))) d

/-- Checked `compute_derivatives`. -/
def compute_derivativesC (sinf : ℚ → ℚ) (state : List ℚ) (cfg : SimulationConfig) :
    Option (List ℚ) := do
  let theta ← getC state 0
  let omega ← getC state 1
  let tq ← torqueC sinf state cfg theta
  let d1 ← setC (List.replicate state.length (0 : ℚ)) 0 omega
  let d2 ← setC d1 1 ((-cfg.damping * omega + tq) / cfg.inertia)
  mass_loopC cfg state theta d2

/-- Checked `temp` vector construction of `rk4_step`. -/
def rk4_tempC (state k : List ℚ) (c : ℚ) : Option (List ℚ) :=
  (List.range state.length).mapM fun i => do
    let s ← getC state i
    let kv ← getC k i
    pure (s + c * kv)

/-- Checked `rk4_step`. -/
def rk4_stepC (sinf : ℚ → ℚ) (state : List ℚ) (dt : ℚ) (cfg : SimulationConfig) :
    Option (List ℚ) := do
  let k1 ← compute_derivativesC sinf state cfg
  let t1 ← rk4_tempC state k1 (dt * 0.5)
  let k2 ← compute_derivativesC sinf t1 cfg
  let t2 ← rk4_tempC state k2 (dt * 0.5)
  let k3 ← compute_derivativesC sinf t2 cfg
  let t3 ← rk4_tempC state k3 dt
  let k4 ← compute_derivativesC sinf t3 cfg
  (List.range state.length).mapM fun i => do
    let s ← getC state i
    let a ← getC k1 i
    let b ← getC k2 i
    let c3 ← getC k3 i
    let d4 ← getC k4 i
    pure (s + dt / 6 * (a + 2 * b + 2 * c3 + d4))

/-- Checked per-frame mass recording. -/
def record_massesC (nf fr nc : ℕ) (state masses : List ℚ) : Option (List ℚ) :=
  (List.range nc).foldlM
    (fun m cup => do
      let v ← getC state (2 + cup)
      setC m (cup * nf + fr) v) masses

/-- Checked frame recording. -/
def record_frameC (cfg : SimulationConfig) (frame : ℕ) (t : ℚ) (state : List ℚ)
    (res : SimulationResult) : Option SimulationResult := do
  let ts ← setC res.times frame t
  let v0 ← getC state 0
  let th ← setC res.theta frame v0
  let ms ← record_massesC cfg.n_frames frame cfg.n_cups state res.masses
  pure ⟨ts, th, ms⟩

/-- Checked inner integration loop. -/
def sub_stepsC (sinf : ℚ → ℚ) (cfg : SimulationConfig) (dt : ℚ) :
    ℕ → List ℚ × ℚ → Option (List ℚ × ℚ)
  | 0, p => some p
  | n + 1, p => do
    let st ← rk4_stepC sinf p.1 dt cfg
    sub_stepsC sinf cfg dt n (st, p.2 + dt)

/-- Checked frame loop. -/
def sim_loopC (sinf : ℚ → ℚ) (cfg : SimulationConfig) (dt : ℚ) :
    ℕ → ℕ → ℚ → List ℚ → SimulationResult → Option SimulationResult
  | 0, _, _, _, res => some res
  | r + 1, frame, t, state, res => do
    let res1 ← record_frameC cfg frame t state res
    if r = 0 then pure res1
    else do
      let p ← sub_stepsC sinf cfg dt cfg.steps_per_frame (state, t)
      sim_loopC sinf cfg dt r (frame + 1) p.2 p.1 res1

/-- Checked post-validation driver body. -/
def runC (sinf : ℚ → ℚ) (cfg : SimulationConfig) : Option SimulationResult :=
  sim_loopC sinf cfg (sub_dt cfg) cfg.n_frames 0 cfg.t_start (init_state cfg)
    (init_result cfg)

/-! ### List access helpers -/

lemma getD_map_range (f : ℕ → ℚ) (n i : ℕ) :
    ((List.range n).map f).getD i 0 = if i < n then f i else 0 := by
  by_cases h : i < n
  · simp [List.getD_eq_getElem?_getD, List.getElem?_map, List.getElem?_range h, h]
  · rw [List.getD_eq_getElem?_getD, List.getElem?_eq_none (by simpa using not_lt.mp h)]
    simp [h]

lemma getD_set_self {l : List ℚ} {i : ℕ} (h : i < l.length) (v : ℚ) :
    (l.set i v).getD i 0 = v := by
  simp [List.getD_eq_getElem?_getD, List.getElem?_set_self h]

lemma getD_set_ne (l : List ℚ) {i j : ℕ} (h : i ≠ j) (v : ℚ) :
    (l.set i v).getD j 0 = l.getD j 0 := by
  simp [List.getD_eq_getElem?_getD, List.getElem?_set_ne h]

lemma getD_replicate {n i : ℕ} : (List.replicate n (0 : ℚ)).getD i 0 = 0 := by
  rw [List.getD_eq_getElem?_getD, List.getElem?_replicate]
  split <;> rfl

lemma getD_of_length_le {l : List ℚ} {i : ℕ} (h : l.length ≤ i) : l.getD i 0 = 0 := by
  rw [List.getD_eq_getElem?_getD, List.getElem?_eq_none h]
  rfl

/-! ### Basic numeric facts about the model's constants -/

lemma TWO_PI_pos : (0 : ℚ) < TWO_PI := by norm_num [TWO_PI, PI]

/-- The source's `fmod`-and-fix-up wrap equals the canonical
representative `a - TWO_PI * ⌊a / TWO_PI⌋` of `a` modulo `TWO_PI`. -/
lemma wrap_angle_eq (a : ℚ) :
    wrap_angle a = a - TWO_PI * (⌊a / TWO_PI⌋ : ℚ) := by
  have hb : (0 : ℚ) < TWO_PI := TWO_PI_pos
  have hb' : (TWO_PI : ℚ) ≠ 0 := ne_of_gt hb
  have ha : TWO_PI * (a / TWO_PI) = a := mul_div_cancel₀ a hb'
  set q : ℚ := a / TWO_PI with hq
  have hfr : q - (⌊q⌋ : ℚ) = Int.fract q := Int.self_sub_floor q
  unfold wrap_angle fmod ratTrunc
  by_cases hq0 : 0 ≤ q
  · rw [if_pos hq0]
    have h1 : a - TWO_PI * ((⌊q⌋ : ℤ) : ℚ) = TWO_PI * Int.fract q := by
      rw [← hfr, ← ha]; ring
    have h2 : ¬ a - TWO_PI * ((⌊q⌋ : ℤ) : ℚ) < 0 := by
      rw [h1]
      exact not_lt.mpr (mul_nonneg (le_of_lt hb) (Int.fract_nonneg q))
    rw [if_neg h2]
  · rw [if_neg hq0]
    by_cases hz : Int.fract q = 0
    · have hqi : q = (⌊q⌋ : ℚ) := by
        have := hfr; rw [hz, sub_eq_zero] at this; exact this
      have hc : (⌈q⌉ : ℤ) = ⌊q⌋ := by
        rw [hqi, Int.ceil_intCast, Int.floor_intCast]
      rw [hc]
      have h1 : a - TWO_PI * ((⌊q⌋ : ℤ) : ℚ) = 0 := by
        rw [sub_eq_zero, ← ha]
        nth_rewrite 1 [hqi]
        rfl
      rw [h1, if_neg (by norm_num)]
    · have hlt : (⌊q⌋ : ℚ) < q := by
        rcases lt_or_eq_of_le (Int.floor_le q) with h | h
        · exact h
        · exact absurd (by rw [← hfr, h, sub_self]) hz
      have hc : (⌈q⌉ : ℤ) = ⌊q⌋ + 1 := by
        rw [Int.ceil_eq_iff]
        constructor
        · push_cast; linarith
        · push_cast; exact le_of_lt (Int.lt_floor_add_one q)
      rw [hc]
      have h1 : a - TWO_PI * ((⌊q⌋ + 1 : ℤ) : ℚ) = TWO_PI * (Int.fract q - 1) := by
        rw [← hfr, ← ha]; push_cast; ring
      have h2 : a - TWO_PI * ((⌊q⌋ + 1 : ℤ) : ℚ) < 0 := by
        rw [h1]
        have : Int.fract q - 1 < 0 := by
          have := Int.fract_lt_one q; linarith
        exact mul_neg_of_pos_of_neg hb this
      rw [if_pos h2, h1]
      rw [← hfr, ← ha]; ring

lemma wrap_angle_nonneg (a : ℚ) : 0 ≤ wrap_angle a := by
  rw [wrap_angle_eq]
  have hb : (0 : ℚ) < TWO_PI := TWO_PI_pos
  have ha : TWO_PI * (a / TWO_PI) = a := mul_div_cancel₀ a (ne_of_gt hb)
  have h1 : a - TWO_PI * (⌊a / TWO_PI⌋ : ℚ) = TWO_PI * Int.fract (a / TWO_PI) := by
    rw [← Int.self_sub_floor (a / TWO_PI), mul_sub, ha]
  rw [h1]
  exact mul_nonneg (le_of_lt hb) (Int.fract_nonneg _)

lemma wrap_angle_lt (a : ℚ) : wrap_angle a < TWO_PI := by
  rw [wrap_angle_eq]
  have hb : (0 : ℚ) < TWO_PI := TWO_PI_pos
  have ha : TWO_PI * (a / TWO_PI) = a := mul_div_cancel₀ a (ne_of_gt hb)
  have h1 : a - TWO_PI * (⌊a / TWO_PI⌋ : ℚ) = TWO_PI * Int.fract (a / TWO_PI) := by
    rw [← Int.self_sub_floor (a / TWO_PI), mul_sub, ha]
  rw [h1]
  calc TWO_PI * Int.fract (a / TWO_PI) < TWO_PI * 1 :=
        (mul_lt_mul_left hb).mpr (Int.fract_lt_one _)
    _ = TWO_PI := mul_one _

/-! ### Characterization of `compute_derivatives` -/

lemma foldl_add_range (f : ℕ → ℚ) (n : ℕ) :
    (List.range n).foldl (fun acc i => acc + f i) 0 = ∑ i ∈ Finset.range n, f i := by
  induction n with
  | zero => simp
  | succ n ih => rw [List.range_succ, List.foldl_concat, ih, Finset.sum_range_succ]

lemma torque_eq_sum (sinf : ℚ → ℚ) (state : List ℚ) (cfg : SimulationConfig) :
    torque sinf state cfg =
      ∑ i ∈ Finset.range cfg.n_cups,
        torque_term sinf cfg (state.getD 0 0) (state.getD (2 + i) 0) i :=
  foldl_add_range _ _

lemma compute_derivatives_length (sinf : ℚ → ℚ) (state : List ℚ) (cfg : SimulationConfig) :
    (compute_derivatives sinf state cfg).length = state.length := by
  simp [compute_derivatives]

lemma cd_getD (sinf : ℚ → ℚ) (state : List ℚ) (cfg : SimulationConfig) (j : ℕ) :
    (compute_derivatives sinf state cfg).getD j 0 =
      if j < state.length then
        (if j = 0 then state.getD 1 0
         else if j = 1 then
           (-cfg.damping * state.getD 1 0 + torque sinf state cfg) / cfg.inertia
         else if j - 2 < cfg.n_cups then
           mass_deriv cfg (state.getD 0 0) (j - 2) (state.getD j 0)
         else 0)
      else 0 := by
  simp only [compute_derivatives]
  rw [getD_map_range]

lemma cd_getD_zero (sinf : ℚ → ℚ) (state : List ℚ) (cfg : SimulationConfig)
    (hs : 0 < state.length) :
    (compute_derivatives sinf state cfg).getD 0 0 = state.getD 1 0 := by
  rw [cd_getD, if_pos hs, if_pos rfl]

lemma cd_getD_one (sinf : ℚ → ℚ) (state : List ℚ) (cfg : SimulationConfig)
    (hs : 1 < state.length) :
    (compute_derivatives sinf state cfg).getD 1 0 =
      (-cfg.damping * state.getD 1 0 + torque sinf state cfg) / cfg.inertia := by
  rw [cd_getD, if_pos hs, if_neg (by omega), if_pos rfl]

lemma cd_getD_mass (sinf : ℚ → ℚ) (state : List ℚ) (cfg : SimulationConfig) (i : ℕ)
    (hs : 2 + i < state.length) (hc : i < cfg.n_cups) :
    (compute_derivatives sinf state cfg).getD (2 + i) 0 =
      mass_deriv cfg (state.getD 0 0) i (state.getD (2 + i) 0) := by
  rw [cd_getD, if_pos hs, if_neg (by omega), if_neg (by omega)]
  rw [show 2 + i - 2 = i from by omega, if_pos hc]

/-- With a zero leak rate and a zero inflow rate, every mass slot of the
derivative vector is `0`, whatever the state. -/
lemma cd_mass_zero (sinf : ℚ → ℚ) (state : List ℚ) (cfg : SimulationConfig)
    (hl : cfg.leak_rate = 0) (hi : cfg.inflow_rate = 0) (j : ℕ) (hj : 2 ≤ j) :
    (compute_derivatives sinf state cfg).getD j 0 = 0 := by
  rw [cd_getD, if_neg (show ¬ j = 0 by omega), if_neg (show ¬ j = 1 by omega)]
  simp [mass_deriv, hl, hi]

/-! ### Characterization of `rk4_step` -/

lemma rk4_step_length (sinf : ℚ → ℚ) (state : List ℚ) (dt : ℚ) (cfg : SimulationConfig) :
    (rk4_step sinf state dt cfg).length = state.length := by
  simp [rk4_step]

lemma rk4_temp_length (state k : List ℚ) (c : ℚ) :
    (rk4_temp state k c).length = state.length := by
  simp [rk4_temp]

lemma rk4_temp_getD (state k : List ℚ) (c : ℚ) (i : ℕ) (h : i < state.length) :
    (rk4_temp state k c).getD i 0 = state.getD i 0 + c * k.getD i 0 := by
  rw [rk4_temp, getD_map_range, if_pos h]

lemma rk4_step_getD (sinf : ℚ → ℚ) (state : List ℚ) (dt : ℚ) (cfg : SimulationConfig)
    (i : ℕ) (h : i < state.length) :
    (rk4_step sinf state dt cfg).getD i 0 =
      state.getD i 0 +
        dt / 6 * ((rk4_k1 sinf state cfg).getD i 0 + 2 * (rk4_k2 sinf state dt cfg).getD i 0 +
          2 * (rk4_k3 sinf state dt cfg).getD i 0 + (rk4_k4 sinf state dt cfg).getD i 0) := by
  simp only [rk4_step]
  rw [getD_map_range, if_pos h]

/-- With zero rates, one RK4 sub-step leaves every mass slot unchanged. -/
lemma rk4_mass_invariant (sinf : ℚ → ℚ) (state : List ℚ) (dt : ℚ) (cfg : SimulationConfig)
    (hl : cfg.leak_rate = 0) (hi : cfg.inflow_rate = 0) (j : ℕ) (hj : 2 ≤ j) :
    (rk4_step sinf state dt cfg).getD j 0 = state.getD j 0 := by
  by_cases h : j < state.length
  · rw [rk4_step_getD sinf state dt cfg j h]
    rw [rk4_k1, rk4_k2, rk4_k3, rk4_k4]
    rw [cd_mass_zero _ _ _ hl hi j hj, cd_mass_zero _ _ _ hl hi j hj,
      cd_mass_zero _ _ _ hl hi j hj, cd_mass_zero _ _ _ hl hi j hj]
    ring
  · rw [getD_of_length_le (by rw [rk4_step_length]; omega),
      getD_of_length_le (by omega)]

/-! ### The integration loop -/

lemma sub_steps_eq (sinf : ℚ → ℚ) (cfg : SimulationConfig) (dt : ℚ) :
    ∀ (n : ℕ) (st : List ℚ) (t : ℚ),
      sub_steps sinf cfg dt n (st, t) =
        (((fun s => rk4_step sinf s dt cfg)^[n]) st, t + (n : ℚ) * dt) := by
  intro n
  induction n with
  | zero => intro st t; simp [sub_steps]
  | succ n ih =>
    intro st t
    rw [sub_steps, ih, Function.iterate_succ_apply]
    refine congrArg _ ?_
    push_cast
    ring

lemma sub_steps_frame (sinf : ℚ → ℚ) (cfg : SimulationConfig) (dt : ℚ) (st : List ℚ) (t : ℚ) :
    sub_steps sinf cfg dt cfg.steps_per_frame (st, t) =
      (frame_advance sinf cfg dt st, t + (cfg.steps_per_frame : ℚ) * dt) := by
  rw [sub_steps_eq, frame_advance]

lemma record_masses_succ (nf fr nc : ℕ) (state masses : List ℚ) :
    record_masses nf fr (nc + 1) state masses =
      (record_masses nf fr nc state masses).set (nc * nf + fr) (state.getD (2 + nc) 0) := by
  rw [record_masses, record_masses, List.range_succ, List.foldl_concat]

lemma record_masses_length (nf fr nc : ℕ) (state masses : List ℚ) :
    (record_masses nf fr nc state masses).length = masses.length := by
  induction nc with
  | zero => rfl
  | succ nc ih => rw [record_masses_succ, List.length_set, ih]

lemma record_masses_getD_hit (nf fr : ℕ) (state masses : List ℚ) (NC : ℕ)
    (hlen : masses.length = NC * nf) (hfr : fr < nf) :
    ∀ (nc : ℕ), nc ≤ NC → ∀ c, c < nc →
      (record_masses nf fr nc state masses).getD (c * nf + fr) 0 = state.getD (2 + c) 0 := by
  intro nc
  induction nc with
  | zero => intro _ c hc; omega
  | succ nc ih =>
    intro hnc c hc
    rw [record_masses_succ]
    by_cases hceq : c = nc
    · subst hceq
      have hidx : c * nf + fr < (record_masses nf fr c state masses).length := by
        rw [record_masses_length, hlen]
        calc c * nf + fr < c * nf + nf := by omega
          _ = (c + 1) * nf := by ring
          _ ≤ NC * nf := Nat.mul_le_mul_right nf (by omega)
      exact getD_set_self hidx _
    · rw [getD_set_ne _ (by
        intro hcontra
        have : nc * nf = c * nf := by omega
        have : nc = c := Nat.eq_of_mul_eq_mul_right (by omega) this
        omega) _]
      exact ih (by omega) c (by omega)

lemma record_masses_getD_miss (nf fr : ℕ) (state masses : List ℚ) (c k : ℕ)
    (hk : k < nf) (hfr : fr < nf) (hne : k ≠ fr) :
    ∀ (nc : ℕ),
      (record_masses nf fr nc state masses).getD (c * nf + k) 0 =
        masses.getD (c * nf + k) 0 := by
  intro nc
  induction nc with
  | zero => rfl
  | succ nc ih =>
    rw [record_masses_succ]
    rw [getD_set_ne _ (by
      intro hcontra
      rcases Nat.lt_trichotomy nc c with hlt | heq | hgt
      · have h5 : nc * nf + fr < c * nf + k := by
          calc nc * nf + fr < nc * nf + nf := by omega
            _ = (nc + 1) * nf := by ring
            _ ≤ c * nf := Nat.mul_le_mul_right nf (by omega)
            _ ≤ c * nf + k := Nat.le_add_right _ _
        exact absurd hcontra (Nat.ne_of_lt h5)
      · subst heq
        exact hne (Nat.add_left_cancel hcontra).symm
      · have h5 : c * nf + k < nc * nf + fr := by
          calc c * nf + k < c * nf + nf := by omega
            _ = (c + 1) * nf := by ring
            _ ≤ nc * nf := Nat.mul_le_mul_right nf (by omega)
            _ ≤ nc * nf + fr := Nat.le_add_right _ _
        exact absurd hcontra.symm (Nat.ne_of_lt h5)) _]
    exact ih

/-- The master characterization of the frame loop: lengths are
preserved, frames `frame .. frame + r - 1` get recorded from the
incrementally advanced time and state, and earlier slots are untouched. -/
lemma sim_loop_spec (sinf : ℚ → ℚ) (cfg : SimulationConfig) (dt : ℚ) :
    ∀ (r frame : ℕ) (t : ℚ) (st : List ℚ) (res : SimulationResult),
      frame + r = cfg.n_frames →
      res.times.length = cfg.n_frames →
      res.theta.length = cfg.n_frames →
      res.masses.length = cfg.n_cups * cfg.n_frames →
      (sim_loop sinf cfg dt r frame t st res).times.length = cfg.n_frames ∧
      (sim_loop sinf cfg dt r frame t st res).theta.length = cfg.n_frames ∧
      (sim_loop sinf cfg dt r frame t st res).masses.length = cfg.n_cups * cfg.n_frames ∧
      (∀ j, j < r →
        (sim_loop sinf cfg dt r frame t st res).times.getD (frame + j) 0 =
          t + (j : ℚ) * ((cfg.steps_per_frame : ℚ) * dt) ∧
        (sim_loop sinf cfg dt r frame t st res).theta.getD (frame + j) 0 =
          ((frame_advance sinf cfg dt)^[j] st).getD 0 0 ∧
        ∀ c, c < cfg.n_cups →
          (sim_loop sinf cfg dt r frame t st res).masses.getD
              (c * cfg.n_frames + (frame + j)) 0 =
            ((frame_advance sinf cfg dt)^[j] st).getD (2 + c) 0) ∧
      (∀ k, k < frame →
        (sim_loop sinf cfg dt r frame t st res).times.getD k 0 = res.times.getD k 0 ∧
        (sim_loop sinf cfg dt r frame t st res).theta.getD k 0 = res.theta.getD k 0 ∧
        ∀ c, c < cfg.n_cups →
          (sim_loop sinf cfg dt r frame t st res).masses.getD (c * cfg.n_frames + k) 0 =
            res.masses.getD (c * cfg.n_frames + k) 0) := by
  intro r
  induction r with
  | zero =>
    intro frame t st res h1 h2 h3 h4
    refine ⟨h2, h3, h4, fun j hj => absurd hj (by omega), fun k _ => ⟨rfl, rfl, fun c _ => rfl⟩⟩
  | succ r ih =>
    intro frame t st res h1 h2 h3 h4
    have hfr : frame < cfg.n_frames := by omega
    -- facts about the recorded intermediate result
    have hT : (record_frame cfg frame t st res).times = res.times.set frame t := rfl
    have hTh : (record_frame cfg frame t st res).theta =
        res.theta.set frame (st.getD 0 0) := rfl
    have hM : (record_frame cfg frame t st res).masses =
        record_masses cfg.n_frames frame cfg.n_cups st res.masses := rfl
    have l1 : (record_frame cfg frame t st res).times.length = cfg.n_frames := by
      rw [hT, List.length_set, h2]
    have l2 : (record_frame cfg frame t st res).theta.length = cfg.n_frames := by
      rw [hTh, List.length_set, h3]
    have l3 : (record_frame cfg frame t st res).masses.length =
        cfg.n_cups * cfg.n_frames := by
      rw [hM, record_masses_length, h4]
    have rT : (record_frame cfg frame t st res).times.getD frame 0 = t := by
      rw [hT]; exact getD_set_self (by omega) _
    have rTh : (record_frame cfg frame t st res).theta.getD frame 0 = st.getD 0 0 := by
      rw [hTh]; exact getD_set_self (by omega) _
    have rM : ∀ c, c < cfg.n_cups →
        (record_frame cfg frame t st res).masses.getD (c * cfg.n_frames + frame) 0 =
          st.getD (2 + c) 0 := by
      intro c hc
      rw [hM]
      exact record_masses_getD_hit cfg.n_frames frame st res.masses cfg.n_cups h4 hfr
        cfg.n_cups le_rfl c hc
    have uT : ∀ k, k ≠ frame →
        (record_frame cfg frame t st res).times.getD k 0 = res.times.getD k 0 := by
      intro k hk; rw [hT]; exact getD_set_ne _ (fun h => hk h.symm) _
    have uTh : ∀ k, k ≠ frame →
        (record_frame cfg frame t st res).theta.getD k 0 = res.theta.getD k 0 := by
      intro k hk; rw [hTh]; exact getD_set_ne _ (fun h => hk h.symm) _
    have uM : ∀ c k, k < cfg.n_frames → k ≠ frame →
        (record_frame cfg frame t st res).masses.getD (c * cfg.n_frames + k) 0 =
          res.masses.getD (c * cfg.n_frames + k) 0 := by
      intro c k hk hkne
      rw [hM]
      exact record_masses_getD_miss cfg.n_frames frame st res.masses c k hk hfr hkne cfg.n_cups
    by_cases hr : r = 0
    · subst hr
      have hloop : sim_loop sinf cfg dt 1 frame t st res =
          record_frame cfg frame t st res := rfl
      rw [hloop]
      refine ⟨l1, l2, l3, ?_, ?_⟩
      · intro j hj
        have hj0 : j = 0 := by omega
        subst hj0
        refine ⟨?_, ?_, ?_⟩
        · simpa using rT
        · simpa using rTh
        · intro c hc; simpa using rM c hc
      · intro k hk
        exact ⟨uT k (by omega), uTh k (by omega), fun c hc => uM c k (by omega) (by omega)⟩
    · have hloop : sim_loop sinf cfg dt (r + 1) frame t st res =
          sim_loop sinf cfg dt r (frame + 1)
            (t + (cfg.steps_per_frame : ℚ) * dt) (frame_advance sinf cfg dt st)
            (record_frame cfg frame t st res) := by
        rw [sim_loop]
        rw [if_neg hr, sub_steps_frame]
      rw [hloop]
      obtain ⟨g1, g2, g3, grec, gu⟩ := ih (frame + 1)
        (t + (cfg.steps_per_frame : ℚ) * dt) (frame_advance sinf cfg dt st)
        (record_frame cfg frame t st res) (by omega) l1 l2 l3
      refine ⟨g1, g2, g3, ?_, ?_⟩
      · intro j hj
        by_cases hj0 : j = 0
        · subst hj0
          obtain ⟨w1, w2, w3⟩ := gu frame (by omega)
          refine ⟨?_, ?_, ?_⟩
          · simpa using w1.trans rT
          · simpa using w2.trans rTh
          · intro c hc
            simpa using (w3 c hc).trans (rM c hc)
        · obtain ⟨j, rfl⟩ := Nat.exists_eq_succ_of_ne_zero hj0
          obtain ⟨w1, w2, w3⟩ := grec j (by omega)
          have harith : frame + 1 + j = frame + (j + 1) := by omega
          rw [harith] at w1 w2 w3
          refine ⟨?_, ?_, ?_⟩
          · rw [w1]; push_cast; ring
          · rw [w2, ← Function.iterate_succ_apply]
          · intro c hc
            rw [w3 c hc, ← Function.iterate_succ_apply]
      · intro k hk
        obtain ⟨w1, w2, w3⟩ := gu k (by omega)
        exact ⟨by rw [w1, uT k (by omega)], by rw [w2, uTh k (by omega)],
          fun c hc => by rw [w3 c hc, uM c k (by omega) (by omega)]⟩

/-! ### Validation facts and the run-level corollary -/

lemma validate_facts (cfg : SimulationConfig) (hv : validate_config cfg = none) :
    1 ≤ cfg.n_cups ∧ 2 ≤ cfg.n_frames ∧ cfg.t_start < cfg.t_end ∧
      1 ≤ cfg.steps_per_frame := by
  by_cases h1 : cfg.n_cups < 1
  · simp [validate_config, h1] at hv
  · by_cases h2 : cfg.n_frames < 2
    · simp [validate_config, h1, h2] at hv
    · by_cases h3 : cfg.t_end ≤ cfg.t_start
      · simp [validate_config, h1, h2, h3] at hv
      · by_cases h4 : cfg.steps_per_frame < 1
        · simp [validate_config, h1, h2, h3, h4] at hv
        · exact ⟨by omega, by omega, not_le.mp h3, by omega⟩

lemma validate_none (cfg : SimulationConfig) (h1 : ¬ cfg.n_cups < 1)
    (h2 : ¬ cfg.n_frames < 2) (h3 : ¬ cfg.t_end ≤ cfg.t_start)
    (h4 : ¬ cfg.steps_per_frame < 1) : validate_config cfg = none := by
  simp [validate_config, h1, h2, h3, h4]

lemma frame_advance_pow (sinf : ℚ → ℚ) (cfg : SimulationConfig) (dt : ℚ) (j : ℕ) :
    (frame_advance sinf cfg dt)^[j] =
      (fun s => rk4_step sinf s dt cfg)^[cfg.steps_per_frame * j] := by
  rw [Function.iterate_mul]
  rfl

/-- What `run` produces: correct lengths, and every frame slot records
the incrementally advanced time and the state after
`steps_per_frame * frame` sub-steps. -/
lemma run_spec (sinf : ℚ → ℚ) (cfg : SimulationConfig) :
    (run sinf cfg).times.length = cfg.n_frames ∧
    (run sinf cfg).theta.length = cfg.n_frames ∧
    (run sinf cfg).masses.length = cfg.n_cups * cfg.n_frames ∧
    ∀ j, j < cfg.n_frames →
      (run sinf cfg).times.getD j 0 =
        cfg.t_start + (j : ℚ) * ((cfg.steps_per_frame : ℚ) * sub_dt cfg) ∧
      (run sinf cfg).theta.getD j 0 = (frame_state sinf cfg j).getD 0 0 ∧
      ∀ c, c < cfg.n_cups →
        (run sinf cfg).masses.getD (c * cfg.n_frames + j) 0 =
          (frame_state sinf cfg j).getD (2 + c) 0 := by
  obtain ⟨g1, g2, g3, grec, -⟩ := sim_loop_spec sinf cfg (sub_dt cfg) cfg.n_frames 0
    cfg.t_start (init_state cfg) (init_result cfg) (by omega) (by simp [init_result])
    (by simp [init_result]) (by simp [init_result])
  refine ⟨g1, g2, g3, ?_⟩
  intro j hj
  obtain ⟨w1, w2, w3⟩ := grec j hj
  rw [zero_add] at w1 w2 w3
  have hfs : (frame_advance sinf cfg (sub_dt cfg))^[j] (init_state cfg) =
      frame_state sinf cfg j := by
    rw [frame_advance_pow, frame_state, state_after]
  rw [hfs] at w2 w3
  exact ⟨w1, w2, w3⟩

lemma spf_mul_sub_dt (cfg : SimulationConfig) (h : 1 ≤ cfg.steps_per_frame) :
    (cfg.steps_per_frame : ℚ) * sub_dt cfg = frame_dt cfg := by
  rw [sub_dt]
  exact mul_div_cancel₀ _ (Nat.cast_ne_zero.mpr (by omega))

lemma frame_dt_closed (cfg : SimulationConfig) (h2 : 2 ≤ cfg.n_frames) :
    frame_dt cfg = (cfg.t_end - cfg.t_start) / ((cfg.n_frames : ℚ) - 1) := by
  rw [frame_dt]
  congr 1
  rw [Nat.cast_sub (by omega)]
  norm_num

lemma simulate_ok (sinf : ℚ → ℚ) (cfg : SimulationConfig)
    (hv : validate_config cfg = none) :
    simulate sinf cfg = Except.ok (run sinf cfg) := by
  simp [simulate, hv]

/-! ### The initial state -/

lemma init_state_length (cfg : SimulationConfig) :
    (init_state cfg).length = cfg.n_cups + 2 := by
  simp [init_state]

lemma init_state_getD_zero (cfg : SimulationConfig) : (init_state cfg).getD 0 0 = 0 := by
  rw [init_state, getD_set_ne _ (by omega) _, getD_replicate]

lemma init_state_getD_one (cfg : SimulationConfig) :
    (init_state cfg).getD 1 0 = cfg.omega0 := by
  rw [init_state]
  exact getD_set_self (by simp) _

lemma init_state_getD_mass (cfg : SimulationConfig) (j : ℕ) (hj : 2 ≤ j) :
    (init_state cfg).getD j 0 = 0 := by
  rw [init_state, getD_set_ne _ (by omega) _, getD_replicate]

lemma state_after_length (sinf : ℚ → ℚ) (cfg : SimulationConfig) (m : ℕ) :
    (state_after sinf cfg m).length = cfg.n_cups + 2 := by
  induction m with
  | zero => exact init_state_length cfg
  | succ m ih =>
    rw [state_after, Function.iterate_succ_apply']
    rw [rk4_step_length]
    exact ih

lemma state_after_succ (sinf : ℚ → ℚ) (cfg : SimulationConfig) (m : ℕ) :
    state_after sinf cfg (m + 1) =
      rk4_step sinf (state_after sinf cfg m) (sub_dt cfg) cfg := by
  rw [state_after, state_after, Function.iterate_succ_apply']

/-! ### Coasting dynamics: zero rates keep masses at zero, and with zero
damping the wheel angle advances linearly -/

/-- With both rates zero, every mass slot of every reached state equals
its initial value `0`. -/
lemma state_after_mass (sinf : ℚ → ℚ) (cfg : SimulationConfig)
    (hl : cfg.leak_rate = 0) (hi : cfg.inflow_rate = 0) (m j : ℕ) (hj : 2 ≤ j) :
    (state_after sinf cfg m).getD j 0 = 0 := by
  induction m with
  | zero => exact init_state_getD_mass cfg j hj
  | succ m ih =>
    rw [state_after_succ, rk4_mass_invariant sinf _ _ cfg hl hi j hj]
    exact ih

lemma torque_zero (sinf : ℚ → ℚ) (state : List ℚ) (cfg : SimulationConfig)
    (hm : ∀ i, i < cfg.n_cups → state.getD (2 + i) 0 = 0) :
    torque sinf state cfg = 0 := by
  rw [torque_eq_sum]
  apply Finset.sum_eq_zero
  intro i hi
  rw [torque_term, hm i (Finset.mem_range.mp hi)]
  ring

lemma cd_one_zero (sinf : ℚ → ℚ) (state : List ℚ) (cfg : SimulationConfig)
    (hd : cfg.damping = 0)
    (hm : ∀ i, i < cfg.n_cups → state.getD (2 + i) 0 = 0)
    (hs : 1 < state.length) :
    (compute_derivatives sinf state cfg).getD 1 0 = 0 := by
  rw [cd_getD_one _ _ _ hs, torque_zero sinf state cfg hm, hd]
  simp

/-- An RK4 step of a state whose masses are all zero, under zero
damping and zero rates: `theta` gains `dt * omega`, `omega` and the
masses are unchanged. -/
lemma rk4_step_coast (sinf : ℚ → ℚ) (state : List ℚ) (dt : ℚ) (cfg : SimulationConfig)
    (h : state.length = cfg.n_cups + 2) (hd : cfg.damping = 0)
    (hl : cfg.leak_rate = 0) (hi : cfg.inflow_rate = 0)
    (hm : ∀ i, i < cfg.n_cups → state.getD (2 + i) 0 = 0) :
    (rk4_step sinf state dt cfg).getD 0 0 = state.getD 0 0 + dt * state.getD 1 0 ∧
    (rk4_step sinf state dt cfg).getD 1 0 = state.getD 1 0 ∧
    ∀ i, i < cfg.n_cups → (rk4_step sinf state dt cfg).getD (2 + i) 0 = 0 := by
  have hs0 : 0 < state.length := by omega
  have hs1 : 1 < state.length := by omega
  have k1_0 : (rk4_k1 sinf state cfg).getD 0 0 = state.getD 1 0 :=
    cd_getD_zero sinf state cfg hs0
  have k1_1 : (rk4_k1 sinf state cfg).getD 1 0 = 0 :=
    cd_one_zero sinf state cfg hd hm hs1
  -- stage-2 prediction
  have t1len : (rk4_temp state (rk4_k1 sinf state cfg) (dt * 0.5)).length = state.length :=
    rk4_temp_length _ _ _
  have t1_1 : (rk4_temp state (rk4_k1 sinf state cfg) (dt * 0.5)).getD 1 0 =
      state.getD 1 0 := by
    rw [rk4_temp_getD _ _ _ 1 hs1, k1_1]; ring
  have t1m : ∀ i, i < cfg.n_cups →
      (rk4_temp state (rk4_k1 sinf state cfg) (dt * 0.5)).getD (2 + i) 0 = 0 := by
    intro i hcup
    rw [rk4_temp_getD _ _ _ (2 + i) (by omega), hm i hcup,
      rk4_k1, cd_mass_zero sinf state cfg hl hi (2 + i) (by omega)]
    ring
  have k2_0 : (rk4_k2 sinf state dt cfg).getD 0 0 = state.getD 1 0 := by
    rw [rk4_k2, cd_getD_zero sinf _ cfg (by rw [t1len]; omega), t1_1]
  have k2_1 : (rk4_k2 sinf state dt cfg).getD 1 0 = 0 := by
    rw [rk4_k2]
    exact cd_one_zero sinf _ cfg hd t1m (by rw [t1len]; omega)
  -- stage-3 prediction
  have t2len : (rk4_temp state (rk4_k2 sinf state dt cfg) (dt * 0.5)).length =
      state.length := rk4_temp_length _ _ _
  have t2_1 : (rk4_temp state (rk4_k2 sinf state dt cfg) (dt * 0.5)).getD 1 0 =
      state.getD 1 0 := by
    rw [rk4_temp_getD _ _ _ 1 hs1, k2_1]; ring
  have t2m : ∀ i, i < cfg.n_cups →
      (rk4_temp state (rk4_k2 sinf state dt cfg) (dt * 0.5)).getD (2 + i) 0 = 0 := by
    intro i hcup
    rw [rk4_temp_getD _ _ _ (2 + i) (by omega), hm i hcup,
      rk4_k2, cd_mass_zero sinf _ cfg hl hi (2 + i) (by omega)]
    ring
  have k3_0 : (rk4_k3 sinf state dt cfg).getD 0 0 = state.getD 1 0 := by
    rw [rk4_k3, cd_getD_zero sinf _ cfg (by rw [t2len]; omega), t2_1]
  have k3_1 : (rk4_k3 sinf state dt cfg).getD 1 0 = 0 := by
    rw [rk4_k3]
    exact cd_one_zero sinf _ cfg hd t2m (by rw [t2len]; omega)
  -- stage-4 prediction
  have t3len : (rk4_temp state (rk4_k3 sinf state dt cfg) dt).length = state.length :=
    rk4_temp_length _ _ _
  have t3_1 : (rk4_temp state (rk4_k3 sinf state dt cfg) dt).getD 1 0 =
      state.getD 1 0 := by
    rw [rk4_temp_getD _ _ _ 1 hs1, k3_1]; ring
  have t3m : ∀ i, i < cfg.n_cups →
      (rk4_temp state (rk4_k3 sinf state dt cfg) dt).getD (2 + i) 0 = 0 := by
    intro i hcup
    rw [rk4_temp_getD _ _ _ (2 + i) (by omega), hm i hcup,
      rk4_k3, cd_mass_zero sinf _ cfg hl hi (2 + i) (by omega)]
    ring
  have k4_0 : (rk4_k4 sinf state dt cfg).getD 0 0 = state.getD 1 0 := by
    rw [rk4_k4, cd_getD_zero sinf _ cfg (by rw [t3len]; omega), t3_1]
  have k4_1 : (rk4_k4 sinf state dt cfg).getD 1 0 = 0 := by
    rw [rk4_k4]
    exact cd_one_zero sinf _ cfg hd t3m (by rw [t3len]; omega)
  refine ⟨?_, ?_, ?_⟩
  · rw [rk4_step_getD sinf state dt cfg 0 hs0, k1_0, k2_0, k3_0, k4_0]
    ring
  · rw [rk4_step_getD sinf state dt cfg 1 hs1, k1_1, k2_1, k3_1, k4_1]
    ring
  · intro i hcup
    rw [rk4_mass_invariant sinf state dt cfg hl hi (2 + i) (by omega)]
    exact hm i hcup

/-- With zero damping and zero rates, the wheel coasts: after `m`
sub-steps `theta = m * sub_dt * omega0`, `omega = omega0`, masses `0`. -/
lemma state_after_coast (sinf : ℚ → ℚ) (cfg : SimulationConfig)
    (hd : cfg.damping = 0) (hl : cfg.leak_rate = 0) (hi : cfg.inflow_rate = 0) (m : ℕ) :
    (state_after sinf cfg m).getD 0 0 = (m : ℚ) * sub_dt cfg * cfg.omega0 ∧
    (state_after sinf cfg m).getD 1 0 = cfg.omega0 := by
  induction m with
  | zero =>
    refine ⟨?_, ?_⟩
    · rw [show state_after sinf cfg 0 = init_state cfg from rfl, init_state_getD_zero]
      push_cast
      ring
    · rw [show state_after sinf cfg 0 = init_state cfg from rfl, init_state_getD_one]
  | succ m ih =>
    have hmass : ∀ i, i < cfg.n_cups → (state_after sinf cfg m).getD (2 + i) 0 = 0 :=
      fun i _ => state_after_mass sinf cfg hl hi m (2 + i) (by omega)
    obtain ⟨c0, c1, -⟩ := rk4_step_coast sinf (state_after sinf cfg m) (sub_dt cfg) cfg
      (state_after_length sinf cfg m) hd hl hi hmass
    rw [state_after_succ]
    refine ⟨?_, ?_⟩
    · rw [c0, ih.1, ih.2]
      push_cast
      ring
    · rw [c1, ih.2]

/-! ### The checked variant agrees with the engine -/

lemma getC_eq {l : List ℚ} {i : ℕ} (h : i < l.length) : getC l i = some (l.getD i 0) := by
  rw [getC, List.getElem?_eq_getElem h, List.getD_eq_getElem?_getD,
    List.getElem?_eq_getElem h]
  rfl

lemma setC_eq {l : List ℚ} {i : ℕ} (h : i < l.length) (v : ℚ) :
    setC l i v = some (l.set i v) := if_pos h

lemma foldlM_eq_foldl {α β : Type} (P : β → Prop) (f : β → α → Option β)
    (g : β → α → β) :
    ∀ (l : List α),
      (∀ b a, a ∈ l → P b → P (g b a)) →
      (∀ b a, a ∈ l → P b → f b a = some (g b a)) →
      ∀ init, P init → l.foldlM f init = some (l.foldl g init) := by
  intro l
  induction l with
  | nil => intro _ _ init _; rfl
  | cons a l ih =>
    intro hP hfg init hinit
    rw [List.foldlM_cons, hfg init a (by simp) hinit]
    have hrest := ih (fun b x hx hb => hP b x (List.mem_cons_of_mem _ hx) hb)
      (fun b x hx hb => hfg b x (List.mem_cons_of_mem _ hx) hb)
      (g init a) (hP init a (by simp) hinit)
    simp [hrest]

lemma mapM_eq_map {α β : Type} (f : α → Option β) (g : α → β) :
    ∀ (l : List α), (∀ a ∈ l, f a = some (g a)) → l.mapM f = some (l.map g) := by
  intro l
  induction l with
  | nil => intro _; rfl
  | cons a l ih =>
    intro h
    rw [List.mapM_cons, h a (by simp),
      ih (fun x hx => h x (List.mem_cons_of_mem _ hx))]
    simp

lemma torqueC_eq (sinf : ℚ → ℚ) (state : List ℚ) (cfg : SimulationConfig)
    (hst : cfg.n_cups + 2 ≤ state.length) :
    torqueC sinf state cfg (state.getD 0 0) = some (torque sinf state cfg) := by
  rw [torqueC, torque]
  refine foldlM_eq_foldl (fun _ => True) _ _ (List.range cfg.n_cups)
    (fun _ _ _ _ => trivial) ?_ 0 trivial
  intro b i hi _
  have hi' := List.mem_range.mp hi
  rw [getC_eq (show 2 + i < state.length by omega)]
  simp

lemma foldl_set_length {α : Type} (idx : α → ℕ) (v : α → ℚ) :
    ∀ (xs : List α) (l : List ℚ),
      (xs.foldl (fun acc x => acc.set (idx x) (v x)) l).length = l.length := by
  intro xs
  induction xs with
  | nil => intro l; rfl
  | cons a xs ih =>
    intro l
    rw [List.foldl_cons, ih, List.length_set]

lemma mass_loop_length (cfg : SimulationConfig) (state : List ℚ) (theta : ℚ)
    (d : List ℚ) : (mass_loop cfg state theta d).length = d.length :=
  foldl_set_length _ _ _ d

lemma mass_loopC_eq (cfg : SimulationConfig) (state : List ℚ) (theta : ℚ)
    (hst : state.length = cfg.n_cups + 2) (d : List ℚ) (hd : d.length = state.length) :
    mass_loopC cfg state theta d = some (mass_loop cfg state theta d) := by
  rw [mass_loopC, mass_loop]
  refine foldlM_eq_foldl (fun b => b.length = state.length) _ _ (List.range cfg.n_cups)
    ?_ ?_ d hd
  · intro b i _ hb
    rw [List.length_set]
    exact hb
  · intro b i hi hb
    have hi' := List.mem_range.mp hi
    rw [getC_eq (show 2 + i < state.length by omega)]
    simp [setC_eq (show 2 + i < b.length by omega) _]

lemma eq_of_getD {l₁ l₂ : List ℚ} (hlen : l₁.length = l₂.length)
    (h : ∀ j, j < l₁.length → l₁.getD j 0 = l₂.getD j 0) : l₁ = l₂ := by
  apply List.ext_getElem hlen
  intro j h1 h2
  have hj := h j h1
  rwa [List.getD_eq_getElem?_getD, List.getD_eq_getElem?_getD,
    List.getElem?_eq_getElem h1, List.getElem?_eq_getElem h2] at hj

lemma mass_loop_fold_getD (cfg : SimulationConfig) (state : List ℚ) (theta : ℚ) :
    ∀ (nc : ℕ) (d : List ℚ) (j : ℕ),
      ((List.range nc).foldl
          (fun acc i => acc.set (2 + i) (mass_deriv cfg theta i (state.getD (2 + i) 0)))
          d).getD j 0 =
        if 2 ≤ j ∧ j - 2 < nc ∧ j < d.length then
          mass_deriv cfg theta (j - 2) (state.getD j 0)
        else d.getD j 0 := by
  intro nc
  induction nc with
  | zero =>
    intro d j
    simp only [List.range_zero, List.foldl_nil]
    rw [if_neg (by omega)]
  | succ nc ih =>
    intro d j
    rw [List.range_succ, List.foldl_append, List.foldl_cons, List.foldl_nil]
    have hXlen : ((List.range nc).foldl
        (fun acc i => acc.set (2 + i) (mass_deriv cfg theta i (state.getD (2 + i) 0)))
        d).length = d.length := foldl_set_length _ _ _ _
    by_cases hj : j = 2 + nc
    · subst hj
      by_cases hin : 2 + nc < d.length
      · rw [getD_set_self (by rw [hXlen]; exact hin) _, if_pos ⟨by omega, by omega, hin⟩]
        rw [show 2 + nc - 2 = nc from by omega]
      · rw [List.set_eq_of_length_le (by omega : ((List.range nc).foldl _ d).length ≤ 2 + nc)]
        rw [ih d (2 + nc), if_neg (by omega), if_neg (by omega)]
    · rw [getD_set_ne _ (fun hcc => hj hcc.symm) _, ih d j]
      have hiff : (2 ≤ j ∧ j - 2 < nc ∧ j < d.length) ↔
          (2 ≤ j ∧ j - 2 < nc + 1 ∧ j < d.length) := by
        constructor
        · rintro ⟨x, y, z⟩; exact ⟨x, by omega, z⟩
        · rintro ⟨x, y, z⟩; exact ⟨x, by omega, z⟩
      rw [if_congr hiff rfl rfl]

lemma base_getD (n : ℕ) (a b : ℚ) (hn : 1 < n) :
    (((List.replicate n (0 : ℚ)).set 0 a).set 1 b).getD 0 0 = a ∧
    (((List.replicate n (0 : ℚ)).set 0 a).set 1 b).getD 1 0 = b ∧
    ∀ j, 2 ≤ j → (((List.replicate n (0 : ℚ)).set 0 a).set 1 b).getD j 0 = 0 := by
  refine ⟨?_, ?_, ?_⟩
  · rw [getD_set_ne _ (by omega) _]
    exact getD_set_self (by simp; omega) _
  · exact getD_set_self (by simp; omega) _
  · intro j hj
    rw [getD_set_ne _ (by omega) _, getD_set_ne _ (by omega) _, getD_replicate]

lemma mass_loop_eq_cd (sinf : ℚ → ℚ) (state : List ℚ) (cfg : SimulationConfig)
    (hst : state.length = cfg.n_cups + 2) :
    mass_loop cfg state (state.getD 0 0)
      (((List.replicate state.length (0 : ℚ)).set 0 (state.getD 1 0)).set 1
        ((-cfg.damping * state.getD 1 0 + torque sinf state cfg) / cfg.inertia)) =
      compute_derivatives sinf state cfg := by
  have hblen : (((List.replicate state.length (0 : ℚ)).set 0 (state.getD 1 0)).set 1
      ((-cfg.damping * state.getD 1 0 + torque sinf state cfg) / cfg.inertia)).length =
      state.length := by simp
  obtain ⟨b0, b1, bm⟩ := base_getD state.length (state.getD 1 0)
    ((-cfg.damping * state.getD 1 0 + torque sinf state cfg) / cfg.inertia)
    (by omega)
  apply eq_of_getD
  · rw [mass_loop_length, hblen, compute_derivatives_length]
  · intro j hj
    rw [mass_loop_length, hblen] at hj
    rw [mass_loop, mass_loop_fold_getD, cd_getD, if_pos hj, hblen]
    by_cases h0 : j = 0
    · subst h0
      rw [if_neg (by omega), if_pos rfl]
      exact b0
    · by_cases h1 : j = 1
      · subst h1
        rw [if_neg (by omega), if_neg h0, if_pos rfl]
        exact b1
      · rw [if_pos ⟨by omega, by omega, hj⟩, if_neg h0, if_neg h1,
          if_pos (by omega : j - 2 < cfg.n_cups)]

lemma compute_derivativesC_eq (sinf : ℚ → ℚ) (state : List ℚ) (cfg : SimulationConfig)
    (hst : state.length = cfg.n_cups + 2) :
    compute_derivativesC sinf state cfg = some (compute_derivatives sinf state cfg) := by
  have h0 : 0 < state.length := by omega
  have h1 : 1 < state.length := by omega
  rw [compute_derivativesC, getC_eq h0, getC_eq h1]
  simp only [Option.bind_eq_bind, Option.some_bind]
  rw [torqueC_eq sinf state cfg (by omega)]
  simp only [Option.some_bind]
  rw [setC_eq (show 0 < (List.replicate state.length (0 : ℚ)).length by simp; omega) _]
  simp only [Option.some_bind]
  rw [setC_eq (show 1 < ((List.replicate state.length (0 : ℚ)).set 0
      (state.getD 1 0)).length by simp; omega) _]
  simp only [Option.some_bind]
  rw [mass_loopC_eq cfg state (state.getD 0 0) hst _ (by simp)]
  rw [mass_loop_eq_cd sinf state cfg hst]

lemma rk4_tempC_eq (state k : List ℚ) (c : ℚ) (hk : k.length = state.length) :
    rk4_tempC state k c = some (rk4_temp state k c) := by
  rw [rk4_tempC, rk4_temp]
  apply mapM_eq_map
  intro i hi
  have hi' := List.mem_range.mp hi
  rw [getC_eq hi', getC_eq (show i < k.length by omega)]
  simp

lemma rk4_stepC_eq (sinf : ℚ → ℚ) (state : List ℚ) (dt : ℚ) (cfg : SimulationConfig)
    (hst : state.length = cfg.n_cups + 2) :
    rk4_stepC sinf state dt cfg = some (rk4_step sinf state dt cfg) := by
  have hk1 : (rk4_k1 sinf state cfg).length = state.length :=
    compute_derivatives_length sinf state cfg
  have ht1 : (rk4_temp state (rk4_k1 sinf state cfg) (dt * 0.5)).length = state.length :=
    rk4_temp_length _ _ _
  have hk2 : (rk4_k2 sinf state dt cfg).length = state.length := by
    rw [rk4_k2, compute_derivatives_length, ht1]
  have ht2 : (rk4_temp state (rk4_k2 sinf state dt cfg) (dt * 0.5)).length =
      state.length := rk4_temp_length _ _ _
  have hk3 : (rk4_k3 sinf state dt cfg).length = state.length := by
    rw [rk4_k3, compute_derivatives_length, ht2]
  have ht3 : (rk4_temp state (rk4_k3 sinf state dt cfg) dt).length = state.length :=
    rk4_temp_length _ _ _
  have hk4 : (rk4_k4 sinf state dt cfg).length = state.length := by
    rw [rk4_k4, compute_derivatives_length, ht3]
  rw [rk4_stepC]
  rw [show compute_derivativesC sinf state cfg = some (rk4_k1 sinf state cfg) from
    compute_derivativesC_eq sinf state cfg hst]
  simp only [Option.bind_eq_bind, Option.some_bind]
  rw [rk4_tempC_eq state (rk4_k1 sinf state cfg) (dt * 0.5) hk1]
  simp only [Option.some_bind]
  rw [show compute_derivativesC sinf (rk4_temp state (rk4_k1 sinf state cfg) (dt * 0.5))
      cfg = some (rk4_k2 sinf state dt cfg) from
    compute_derivativesC_eq sinf _ cfg (by rw [ht1]; exact hst)]
  simp only [Option.some_bind]
  rw [rk4_tempC_eq state (rk4_k2 sinf state dt cfg) (dt * 0.5) hk2]
  simp only [Option.some_bind]
  rw [show compute_derivativesC sinf (rk4_temp state (rk4_k2 sinf state dt cfg) (dt * 0.5))
      cfg = some (rk4_k3 sinf state dt cfg) from
    compute_derivativesC_eq sinf _ cfg (by rw [ht2]; exact hst)]
  simp only [Option.some_bind]
  rw [rk4_tempC_eq state (rk4_k3 sinf state dt cfg) dt hk3]
  simp only [Option.some_bind]
  rw [show compute_derivativesC sinf (rk4_temp state (rk4_k3 sinf state dt cfg) dt) cfg =
      some (rk4_k4 sinf state dt cfg) from
    compute_derivativesC_eq sinf _ cfg (by rw [ht3]; exact hst)]
  simp only [Option.some_bind]
  rw [rk4_step]
  apply mapM_eq_map
  intro i hi
  have hi' := List.mem_range.mp hi
  rw [getC_eq hi', getC_eq (show i < (rk4_k1 sinf state cfg).length by omega),
    getC_eq (show i < (rk4_k2 sinf state dt cfg).length by omega),
    getC_eq (show i < (rk4_k3 sinf state dt cfg).length by omega),
    getC_eq (show i < (rk4_k4 sinf state dt cfg).length by omega)]
  simp

lemma iterate_rk4_length (sinf : ℚ → ℚ) (cfg : SimulationConfig) (dt : ℚ)
    (st : List ℚ) : ∀ n, (((fun s => rk4_step sinf s dt cfg)^[n]) st).length = st.length := by
  intro n
  induction n with
  | zero => rfl
  | succ n ih =>
    rw [Function.iterate_succ_apply', rk4_step_length]
    exact ih

lemma sub_stepsC_eq (sinf : ℚ → ℚ) (cfg : SimulationConfig) (dt : ℚ) :
    ∀ (n : ℕ) (st : List ℚ) (t : ℚ), st.length = cfg.n_cups + 2 →
      sub_stepsC sinf cfg dt n (st, t) = some (sub_steps sinf cfg dt n (st, t)) := by
  intro n
  induction n with
  | zero => intro st t _; rfl
  | succ n ih =>
    intro st t hst
    rw [sub_stepsC, sub_steps]
    rw [show rk4_stepC sinf (st, t).1 dt cfg = some (rk4_step sinf st dt cfg) from
      rk4_stepC_eq sinf st dt cfg hst]
    simp only [Option.bind_eq_bind, Option.some_bind]
    exact ih _ _ (by rw [rk4_step_length]; exact hst)

lemma record_massesC_eq (nf fr nc : ℕ) (state masses : List ℚ) (hfr : fr < nf)
    (hst : nc + 2 ≤ state.length) (hm : masses.length = nc * nf) :
    record_massesC nf fr nc state masses = some (record_masses nf fr nc state masses) := by
  rw [record_massesC, record_masses]
  refine foldlM_eq_foldl (fun m => m.length = nc * nf) _ _ (List.range nc) ?_ ?_ masses hm
  · intro b cup _ hb
    rw [List.length_set]
    exact hb
  · intro b cup hcup hb
    have hc := List.mem_range.mp hcup
    rw [getC_eq (show 2 + cup < state.length by omega)]
    have hidx : cup * nf + fr < b.length := by
      rw [hb]
      calc cup * nf + fr < cup * nf + nf := by omega
        _ = (cup + 1) * nf := by ring
        _ ≤ nc * nf := Nat.mul_le_mul_right nf (by omega)
    simp [setC_eq hidx]

lemma record_frameC_eq (cfg : SimulationConfig) (frame : ℕ) (t : ℚ) (state : List ℚ)
    (res : SimulationResult) (hfr : frame < cfg.n_frames)
    (h2 : res.times.length = cfg.n_frames) (h3 : res.theta.length = cfg.n_frames)
    (h4 : res.masses.length = cfg.n_cups * cfg.n_frames)
    (hst : state.length = cfg.n_cups + 2) :
    record_frameC cfg frame t state res = some (record_frame cfg frame t state res) := by
  rw [record_frameC, setC_eq (show frame < res.times.length by omega) t]
  simp only [Option.bind_eq_bind, Option.some_bind]
  rw [getC_eq (show 0 < state.length by omega)]
  simp only [Option.some_bind]
  rw [setC_eq (show frame < res.theta.length by omega) _]
  simp only [Option.some_bind]
  rw [record_massesC_eq cfg.n_frames frame cfg.n_cups state res.masses hfr
    (by omega) h4]
  simp only [Option.some_bind]
  rfl

lemma sim_loopC_eq (sinf : ℚ → ℚ) (cfg : SimulationConfig) (dt : ℚ) :
    ∀ (r frame : ℕ) (t : ℚ) (st : List ℚ) (res : SimulationResult),
      frame + r = cfg.n_frames → st.length = cfg.n_cups + 2 →
      res.times.length = cfg.n_frames → res.theta.length = cfg.n_frames →
      res.masses.length = cfg.n_cups * cfg.n_frames →
      sim_loopC sinf cfg dt r frame t st res =
        some (sim_loop sinf cfg dt r frame t st res) := by
  intro r
  induction r with
  | zero => intro frame t st res _ _ _ _ _; rfl
  | succ r ih =>
    intro frame t st res h1 hst h2 h3 h4
    rw [sim_loopC, sim_loop,
      record_frameC_eq cfg frame t st res (by omega) h2 h3 h4 hst]
    simp only [Option.bind_eq_bind, Option.some_bind]
    by_cases hr : r = 0
    · subst hr
      simp
    · rw [if_neg hr, if_neg hr]
      rw [show sub_stepsC sinf cfg dt cfg.steps_per_frame (st, t) =
          some (sub_steps sinf cfg dt cfg.steps_per_frame (st, t)) from
        sub_stepsC_eq sinf cfg dt cfg.steps_per_frame st t hst]
      simp only [Option.some_bind]
      have hstlen : (sub_steps sinf cfg dt cfg.steps_per_frame (st, t)).1.length =
          cfg.n_cups + 2 := by
        rw [sub_steps_eq]
        rw [iterate_rk4_length]
        exact hst
      exact ih (frame + 1) _ _ _ (by omega) hstlen
        (by rw [record_frame, List.length_set]; exact h2)
        (by rw [record_frame, List.length_set]; exact h3)
        (by rw [record_frame, record_masses_length]; exact h4)

lemma runC_eq (sinf : ℚ → ℚ) (cfg : SimulationConfig) :
    runC sinf cfg = some (run sinf cfg) := by
  rw [runC, run]
  exact sim_loopC_eq sinf cfg (sub_dt cfg) cfg.n_frames 0 cfg.t_start (init_state cfg)
    (init_result cfg) (by omega) (init_state_length cfg) (by simp [init_result])
    (by simp [init_result]) (by simp [init_result])

/-! ## The claims -/

lemma validate_isSome_iff (cfg : SimulationConfig) :
    (validate_config cfg).isSome ↔
      (cfg.n_cups < 1 ∨ cfg.n_frames < 2 ∨ cfg.t_end ≤ cfg.t_start ∨
        cfg.steps_per_frame < 1) := by
  rw [validate_config]
  by_cases h1 : cfg.n_cups < 1
  · simp [h1]
  · by_cases h2 : cfg.n_frames < 2
    · simp [h1, h2]
    · by_cases h3 : cfg.t_end ≤ cfg.t_start
      · simp [h1, h2, h3]
      · by_cases h4 : cfg.steps_per_frame < 1
        · simp [h1, h2, h3, h4]
        · simp [h1, h2, h3, h4]

/-- Claim C1: on a state of length `n_cups + 2`, `compute_derivatives`
returns a vector of the same length with `d(theta)/dt = omega`,
`d(omega)/dt = (-damping * omega + torque) / inertia` where the torque
is the sum over cups of `mass_i * g * radius * sin(theta + i * (2*pi /
n_cups))`, and each cup's mass derivative switches on its angle wrapped
into `[0, 2*pi)` being inside the `0.1`-radian inflow window.  (The
input state is a pure argument; nothing is mutated.) -/
theorem claim_C1 (sinf : ℚ → ℚ) (cfg : SimulationConfig) (state : List ℚ)
    (h : state.length = cfg.n_cups + 2) :
    (compute_derivatives sinf state cfg).length = state.length ∧
    (compute_derivatives sinf state cfg).getD 0 0 = state.getD 1 0 ∧
    (compute_derivatives sinf state cfg).getD 1 0 =
      (-cfg.damping * state.getD 1 0 +
        ∑ i ∈ Finset.range cfg.n_cups,
          state.getD (2 + i) 0 * cfg.g * cfg.radius *
            sinf (state.getD 0 0 + (i : ℚ) * (TWO_PI / (cfg.n_cups : ℚ)))) /
        cfg.inertia ∧
    ∀ i, i < cfg.n_cups →
      (0 ≤ wrap_angle (state.getD 0 0 + (i : ℚ) * (TWO_PI / (cfg.n_cups : ℚ))) ∧
        wrap_angle (state.getD 0 0 + (i : ℚ) * (TWO_PI / (cfg.n_cups : ℚ))) < TWO_PI ∧
        wrap_angle (state.getD 0 0 + (i : ℚ) * (TWO_PI / (cfg.n_cups : ℚ))) =
          (state.getD 0 0 + (i : ℚ) * (TWO_PI / (cfg.n_cups : ℚ))) -
            TWO_PI * (⌊(state.getD 0 0 + (i : ℚ) * (TWO_PI / (cfg.n_cups : ℚ))) /
              TWO_PI⌋ : ℚ)) ∧
      (compute_derivatives sinf state cfg).getD (2 + i) 0 =
        (if wrap_angle (state.getD 0 0 + (i : ℚ) * (TWO_PI / (cfg.n_cups : ℚ))) < 0.1 ∨
            wrap_angle (state.getD 0 0 + (i : ℚ) * (TWO_PI / (cfg.n_cups : ℚ))) >
              TWO_PI - 0.1
         then cfg.inflow_rate - cfg.leak_rate * state.getD (2 + i) 0
         else -cfg.leak_rate * state.getD (2 + i) 0) := by
  have hterm : ∀ i : ℕ,
      torque_term sinf cfg (state.getD 0 0) (state.getD (2 + i) 0) i =
        state.getD (2 + i) 0 * cfg.g * cfg.radius *
          sinf (state.getD 0 0 + (i : ℚ) * (TWO_PI / (cfg.n_cups : ℚ))) := by
    intro i
    rw [torque_term, cup_angle, cup_angle_step,
      mul_comm (TWO_PI / (cfg.n_cups : ℚ)) (i : ℚ)]
  refine ⟨compute_derivatives_length sinf state cfg, cd_getD_zero sinf state cfg (by omega),
    ?_, ?_⟩
  · rw [cd_getD_one sinf state cfg (by omega), torque_eq_sum]
    simp only [hterm]
  · intro i hi
    have hangle : state.getD 0 0 + (i : ℚ) * (TWO_PI / (cfg.n_cups : ℚ)) =
        cup_angle cfg (state.getD 0 0) i := by
      rw [cup_angle, cup_angle_step]
      ring
    refine ⟨⟨by rw [hangle]; exact wrap_angle_nonneg _,
      by rw [hangle]; exact wrap_angle_lt _,
      by rw [hangle, wrap_angle_eq]⟩, ?_⟩
    rw [hangle, cd_getD_mass sinf state cfg i (by omega) hi]
    simp only [mass_deriv]

/-- Witness for C1 at the spec's derivative test configuration and the
state `[theta = 0, omega = 1, mass = 2]`. -/
theorem claim_C1_witness :
    ([(0 : ℚ), 1, 2] : List ℚ).length = deriv_test_config.n_cups + 2 ∧
    (compute_derivatives zeroSin [0, 1, 2] deriv_test_config).getD 0 0 = 1 :=
  ⟨by decide, by
    have h := (claim_C1 zeroSin deriv_test_config [0, 1, 2] (by decide)).2.1
    simpa using h⟩

/-- Claim C2: validation (and `simulate`, which re-checks it) fails
exactly on `n_cups < 1`, `n_frames < 2`, `t_end <= t_start`, or
`steps_per_frame < 1`; an error from `simulate` is exactly a validation
error, and a successful `simulate` is the full `run` (the `Except`
result carries either the error or the complete result, never a partial
one). -/
theorem claim_C2 (cfg : SimulationConfig) (sinf : ℚ → ℚ) :
    ((validate_config cfg).isSome ↔
      (cfg.n_cups < 1 ∨ cfg.n_frames < 2 ∨ cfg.t_end ≤ cfg.t_start ∨
        cfg.steps_per_frame < 1)) ∧
    (∀ e, simulate sinf cfg = Except.error e ↔ validate_config cfg = some e) ∧
    ((∃ e, simulate sinf cfg = Except.error e) ↔
      (cfg.n_cups < 1 ∨ cfg.n_frames < 2 ∨ cfg.t_end ≤ cfg.t_start ∨
        cfg.steps_per_frame < 1)) ∧
    (∀ res, simulate sinf cfg = Except.ok res →
      validate_config cfg = none ∧ res = run sinf cfg) := by
  refine ⟨validate_isSome_iff cfg, ?_, ?_, ?_⟩
  · intro e
    cases hv : validate_config cfg with
    | none => simp [simulate, hv]
    | some e' => simp [simulate, hv]
  · rw [← validate_isSome_iff cfg]
    cases hv : validate_config cfg with
    | none => simp [simulate, hv]
    | some e' => simp [simulate, hv]
  · intro res hres
    cases hv : validate_config cfg with
    | none =>
      rw [simulate_ok sinf cfg hv] at hres
      refine ⟨rfl, ?_⟩
      injection hres with hres'
      exact hres'.symm
    | some e' => simp [simulate, hv] at hres

/-- Witness for C2: at the valid test configuration, a successful
`simulate` is the full run. -/
theorem claim_C2_witness :
    validate_config test_config = none ∧
      run zeroSin test_config = run zeroSin test_config :=
  (claim_C2 test_config zeroSin).2.2.2 (run zeroSin test_config) rfl

/-- Claim C3: `rk4_step` performs the classical RK4 update
`state + dt/6 * (k1 + 2*k2 + 2*k3 + k4)` component-wise, with `k2`,
`k3` evaluated at `state + dt/2 * k_prev` and `k4` at
`state + dt * k3`; and one sub-step of size `0.1` from
`[theta = 0, omega = 1, mass = 0]` with one cup, zero damping and zero
rates yields `[0.1, 1, 0]` for any `sin`, `g`, `radius`, `inertia`. -/
theorem claim_C3 :
    (∀ (sinf : ℚ → ℚ) (cfg : SimulationConfig) (state : List ℚ) (dt : ℚ),
      rk4_step sinf state dt cfg =
        (let k1 := compute_derivatives sinf state cfg
         let k2 := compute_derivatives sinf (rk4_temp state k1 (dt / 2)) cfg
         let k3 := compute_derivatives sinf (rk4_temp state k2 (dt / 2)) cfg
         let k4 := compute_derivatives sinf (rk4_temp state k3 dt) cfg
         (List.range state.length).map fun i =>
           state.getD i 0 +
             dt / 6 * (k1.getD i 0 + 2 * k2.getD i 0 + 2 * k3.getD i 0 +
               k4.getD i 0))) ∧
    (∀ (sinf : ℚ → ℚ) (radius g inertia : ℚ),
      rk4_step sinf [0, 1, 0] 0.1
        { n_cups := 1, radius := radius, g := g, damping := 0, leak_rate := 0,
          inflow_rate := 0, inertia := inertia, omega0 := 1, t_start := 0,
          t_end := 1, n_frames := 2, steps_per_frame := 1 } = [0.1, 1, 0]) := by
  constructor
  · intro sinf cfg state dt
    simp only [rk4_step, rk4_k1, rk4_k2, rk4_k3, rk4_k4]
    rw [show (0.5 : ℚ) = 1 / 2 from by norm_num, mul_one_div]
  · intro sinf radius g inertia
    obtain ⟨c0, c1, cm⟩ := rk4_step_coast sinf [0, 1, 0] 0.1
      { n_cups := 1, radius := radius, g := g, damping := 0, leak_rate := 0,
        inflow_rate := 0, inertia := inertia, omega0 := 1, t_start := 0,
        t_end := 1, n_frames := 2, steps_per_frame := 1 }
      rfl rfl rfl rfl
      (by
        intro i hij
        have hij1 : i < 1 := hij
        have hi0 : i = 0 := by omega
        subst hi0
        rfl)
    apply eq_of_getD
    · rw [rk4_step_length]
      rfl
    · intro j hj
      rw [rk4_step_length] at hj
      have hj3 : j < 3 := hj
      clear hj
      interval_cases j
      · rw [c0]
        norm_num [List.getD]
      · rw [c1]
        norm_num [List.getD]
      · have := cm 0 Nat.one_pos
        rw [show (2 : ℕ) = 2 + 0 from rfl, this]
        norm_num [List.getD]

/-- Claim C4: for a validated configuration, `simulate` succeeds with
the run's result; `times` and `theta` have length `n_frames`, `masses`
has length `n_cups * n_frames`, and the state vector keeps length
`n_cups + 2` after any number of sub-steps. -/
theorem claim_C4 (sinf : ℚ → ℚ) (cfg : SimulationConfig)
    (hv : validate_config cfg = none) :
    simulate sinf cfg = Except.ok (run sinf cfg) ∧
    (run sinf cfg).times.length = cfg.n_frames ∧
    (run sinf cfg).theta.length = cfg.n_frames ∧
    (run sinf cfg).masses.length = cfg.n_cups * cfg.n_frames ∧
    ∀ m, (state_after sinf cfg m).length = cfg.n_cups + 2 := by
  obtain ⟨g1, g2, g3, -⟩ := run_spec sinf cfg
  exact ⟨simulate_ok sinf cfg hv, g1, g2, g3, state_after_length sinf cfg⟩

/-- Witness for C4 at the test configuration. -/
theorem claim_C4_witness :
    validate_config test_config = none ∧
      (run zeroSin test_config).times.length = 3 :=
  ⟨by decide, (claim_C4 zeroSin test_config (by decide)).2.1.trans rfl⟩

/-- Claim C5: the incrementally accumulated timestamps satisfy the
construction formula exactly in the rational model: `times[0] =
t_start`, `times[n_frames-1] = t_end`, and `times[k] = t_start + k *
(t_end - t_start) / (n_frames - 1)` for every frame. -/
theorem claim_C5 (sinf : ℚ → ℚ) (cfg : SimulationConfig)
    (hv : validate_config cfg = none) :
    (run sinf cfg).times.getD 0 0 = cfg.t_start ∧
    (run sinf cfg).times.getD (cfg.n_frames - 1) 0 = cfg.t_end ∧
    ∀ k, k < cfg.n_frames →
      (run sinf cfg).times.getD k 0 =
        cfg.t_start + (k : ℚ) * ((cfg.t_end - cfg.t_start) /
          ((cfg.n_frames : ℚ) - 1)) := by
  obtain ⟨-, h2, -, h4⟩ := validate_facts cfg hv
  obtain ⟨-, -, -, grec⟩ := run_spec sinf cfg
  have hclosed : ∀ k, k < cfg.n_frames →
      (run sinf cfg).times.getD k 0 = cfg.t_start + (k : ℚ) * frame_dt cfg := by
    intro k hk
    rw [(grec k hk).1, spf_mul_sub_dt cfg h4]
  have hcast : (2 : ℚ) ≤ (cfg.n_frames : ℚ) := by exact_mod_cast h2
  have hN1 : ((cfg.n_frames : ℚ) - 1) ≠ 0 := by
    intro hcontra
    have : (cfg.n_frames : ℚ) = 1 := by linarith
    linarith
  refine ⟨?_, ?_, ?_⟩
  · rw [hclosed 0 (by omega)]
    push_cast
    ring
  · rw [hclosed (cfg.n_frames - 1) (by omega), frame_dt_closed cfg h2,
      Nat.cast_sub (by omega)]
    push_cast
    field_simp
  · intro k hk
    rw [hclosed k hk, frame_dt_closed cfg h2]

/-- Witness for C5 at the test configuration. -/
theorem claim_C5_witness :
    validate_config test_config = none ∧
      (run zeroSin test_config).times.getD 0 0 = 0 :=
  ⟨by decide, (claim_C5 zeroSin test_config (by decide)).1⟩

/-- Claim C6: with zero inflow and leak rates, every entry of the
masses table is exactly `0`, for all cups and frames. -/
theorem claim_C6 (sinf : ℚ → ℚ) (cfg : SimulationConfig)
    (hv : validate_config cfg = none) (hl : cfg.leak_rate = 0)
    (hi : cfg.inflow_rate = 0) :
    ∀ idx, idx < cfg.n_cups * cfg.n_frames →
      (run sinf cfg).masses.getD idx 0 = 0 := by
  obtain ⟨-, h2, -, -⟩ := validate_facts cfg hv
  obtain ⟨-, -, -, grec⟩ := run_spec sinf cfg
  intro idx hidx
  have hnf : 0 < cfg.n_frames := by omega
  have hck : idx / cfg.n_frames * cfg.n_frames + idx % cfg.n_frames = idx := by
    rw [Nat.mul_comm]
    exact Nat.div_add_mod idx cfg.n_frames
  have hk : idx % cfg.n_frames < cfg.n_frames := Nat.mod_lt idx hnf
  have hc : idx / cfg.n_frames < cfg.n_cups := by
    rw [Nat.div_lt_iff_lt_mul hnf]
    exact hidx
  rw [← hck, ((grec (idx % cfg.n_frames) hk).2.2) (idx / cfg.n_frames) hc]
  exact state_after_mass sinf cfg hl hi _ (2 + idx / cfg.n_frames)
    (Nat.le_add_right 2 _)

/-- Witness for C6 at the test configuration (zero rates). -/
theorem claim_C6_witness :
    validate_config test_config = none ∧ test_config.leak_rate = 0 ∧
      test_config.inflow_rate = 0 ∧
      (run zeroSin test_config).masses.getD 0 0 = 0 :=
  ⟨by decide, rfl, rfl, claim_C6 zeroSin test_config (by decide) rfl rfl 0 (by decide)⟩

/-- Claim C7: with zero damping, rates and gravity and nonzero
`omega0`, `theta[k] = omega0 * (times[k] - t_start)` for every frame;
and the spec's end-to-end instance gives `times = theta = [0, 0.5, 1]`
with all masses `0` exactly. -/
theorem claim_C7 :
    (∀ (sinf : ℚ → ℚ) (cfg : SimulationConfig),
      validate_config cfg = none → cfg.damping = 0 → cfg.leak_rate = 0 →
      cfg.inflow_rate = 0 → cfg.g = 0 → cfg.omega0 ≠ 0 →
      ∀ k, k < cfg.n_frames →
        (run sinf cfg).theta.getD k 0 =
          cfg.omega0 * ((run sinf cfg).times.getD k 0 - cfg.t_start)) ∧
    simulate zeroSin test_config =
      Except.ok ⟨[0, 0.5, 1], [0, 0.5, 1], [0, 0, 0]⟩ := by
  constructor
  · intro sinf cfg hv hd hl hi hg hw k hk
    obtain ⟨-, -, -, grec⟩ := run_spec sinf cfg
    obtain ⟨w1, w2, -⟩ := grec k hk
    have hc : (frame_state sinf cfg k).getD 0 0 =
        ((cfg.steps_per_frame * k : ℕ) : ℚ) * sub_dt cfg * cfg.omega0 :=
      (state_after_coast sinf cfg hd hl hi (cfg.steps_per_frame * k)).1
    rw [w2, w1, hc]
    push_cast
    ring
  · have hvt : validate_config test_config = none := by decide
    obtain ⟨l1, l2, l3, grec⟩ := run_spec zeroSin test_config
    have hdt : (test_config.steps_per_frame : ℚ) * sub_dt test_config = 1 / 2 := by
      rw [spf_mul_sub_dt test_config (by decide)]
      norm_num [frame_dt, test_config]
    have hsub : sub_dt test_config = 1 / 10 := by
      norm_num [sub_dt, frame_dt, test_config]
    have ht : (run zeroSin test_config).times = [0, 0.5, 1] := by
      apply eq_of_getD
      · rw [l1]; rfl
      · intro j hj
        rw [l1] at hj
        have hj3 : j < 3 := hj
        clear hj
        interval_cases j <;>
          · rw [(grec _ (by decide)).1, hdt]
            norm_num [test_config, List.getD]
    have hcoast : ∀ k : ℕ, (frame_state zeroSin test_config k).getD 0 0 =
        ((test_config.steps_per_frame * k : ℕ) : ℚ) * sub_dt test_config *
          test_config.omega0 :=
      fun k => (state_after_coast zeroSin test_config rfl rfl rfl
        (test_config.steps_per_frame * k)).1
    have hth : (run zeroSin test_config).theta = [0, 0.5, 1] := by
      apply eq_of_getD
      · rw [l2]; rfl
      · intro j hj
        rw [l2] at hj
        have hj3 : j < 3 := hj
        clear hj
        interval_cases j <;>
          · rw [(grec _ (by decide)).2.1, hcoast, hsub]
            norm_num [test_config, List.getD]
    have hms : (run zeroSin test_config).masses = [0, 0, 0] := by
      apply eq_of_getD
      · rw [l3]; rfl
      · intro j hj
        rw [l3] at hj
        have hj3 : j < 3 := hj
        clear hj
        have hmass : ∀ k : ℕ, k < 3 →
            (run zeroSin test_config).masses.getD k 0 = 0 := by
          intro k hk
          have hidx : 0 * test_config.n_frames + k = k := by
            rw [Nat.zero_mul, Nat.zero_add]
          rw [← hidx, ((grec k hk).2.2) 0 (by decide)]
          exact state_after_mass zeroSin test_config rfl rfl _ (2 + 0)
            (Nat.le_add_right 2 _)
        interval_cases j <;>
          · rw [hmass _ (by norm_num)]
            norm_num [List.getD]
    rw [simulate_ok zeroSin test_config hvt]
    refine congrArg Except.ok ?_
    rw [show run zeroSin test_config =
        ⟨(run zeroSin test_config).times, (run zeroSin test_config).theta,
          (run zeroSin test_config).masses⟩ from rfl, ht, hth, hms]

/-- Witness for C7's universally quantified part at the test
configuration, frame 1. -/
theorem claim_C7_witness :
    validate_config test_config = none ∧
      (run zeroSin test_config).theta.getD 1 0 =
        test_config.omega0 *
          ((run zeroSin test_config).times.getD 1 0 - test_config.t_start) :=
  ⟨by decide,
    claim_C7.1 zeroSin test_config (by decide) rfl rfl rfl rfl (by decide) 1 (by decide)⟩

/-- Claim C8: the masses table is cup-major, frame-minor: the mass of
cup `c` at frame `k` (the state's slot `2 + c` when frame `k` is
recorded) sits at flat index `c * n_frames + k`. -/
theorem claim_C8 (sinf : ℚ → ℚ) (cfg : SimulationConfig)
    (hv : validate_config cfg = none) :
    simulate sinf cfg = Except.ok (run sinf cfg) ∧
    ∀ c, c < cfg.n_cups → ∀ k, k < cfg.n_frames →
      (run sinf cfg).masses.getD (c * cfg.n_frames + k) 0 =
        (frame_state sinf cfg k).getD (2 + c) 0 := by
  obtain ⟨-, -, -, grec⟩ := run_spec sinf cfg
  exact ⟨simulate_ok sinf cfg hv, fun c hc k hk => ((grec k hk).2.2) c hc⟩

/-- Witness for C8 at the test configuration, cup 0, frame 1. -/
theorem claim_C8_witness :
    validate_config test_config = none ∧
      (run zeroSin test_config).masses.getD (0 * test_config.n_frames + 1) 0 =
        (frame_state zeroSin test_config 1).getD (2 + 0) 0 :=
  ⟨by decide, (claim_C8 zeroSin test_config (by decide)).2 0 (by decide) 1 (by decide)⟩

/-- Claim C9: `simulate` is a pure function of the configuration (the
source keeps no global or static state and draws no randomness), so
equal configurations give equal results. -/
theorem claim_C9 (sinf : ℚ → ℚ) (cfg₁ cfg₂ : SimulationConfig) (h : cfg₁ = cfg₂) :
    simulate sinf cfg₁ = simulate sinf cfg₂ := by
  rw [h]

/-- Witness for C9 at the test configuration. -/
theorem claim_C9_witness :
    simulate zeroSin test_config = simulate zeroSin test_config :=
  claim_C9 zeroSin test_config test_config rfl

/-- Claim C10: for a validated configuration, the fully bounds-checked
pipeline (`runC`, where every vector subscript of the source is an
`Option`-valued access) succeeds and returns exactly the unchecked
run's result — no access during the whole simulation is out of
bounds. -/
theorem claim_C10 (sinf : ℚ → ℚ) (cfg : SimulationConfig)
    (hv : validate_config cfg = none) :
    runC sinf cfg = some (run sinf cfg) ∧
      simulate sinf cfg = Except.ok (run sinf cfg) :=
  ⟨runC_eq sinf cfg, simulate_ok sinf cfg hv⟩

/-- Witness for C10 at the test configuration. -/
theorem claim_C10_witness :
    validate_config test_config = none ∧
      runC zeroSin test_config = some (run zeroSin test_config) :=
  ⟨by decide, (claim_C10 zeroSin test_config (by decide)).1⟩

end Wheely
